import Mathlib

/-!
Verification of the ore_refined mining client against its specification.

The development shallowly embeds the Rust sources of `ore_test2_optimized`
(strategy engine, dual-channel submission pipeline, retry loops, price client,
balance computation) as executable Lean definitions and proves the specified
properties about them.

Conventions used throughout:
- `u64` amounts (lamports) are modelled as `Nat`; the `f64` arithmetic on
  SOL amounts is modelled by exact rational arithmetic on `ℚ` (all values
  involved are exact decimal fractions, and the source only filters,
  compares and sorts them).
- Network interactions are modelled by oracles: a function from the index of
  the call to the `Except`-valued outcome the remote side produces.
- Side effects that the specification talks about (instruction submission,
  log lines, task spawning) are modelled as explicit event traces.
-/

attribute [local semireducible] Rat.mul Rat.sub Rat.add Rat.inv Rat.ofScientific

/-- Conversion from lamports to SOL, the exact-arithmetic semantics of
solana_sdk `lamports_to_sol(lamports) = lamports as f64 / 1e9`. -/
def lamports_to_sol (lamports : Nat) : ℚ := (lamports : ℚ) / 1000000000

/-- Round account (main.rs / ore_api): `deployed` is the committed amount per
square in lamports, `[u64; 25]` in the source (modelled as a list, length 25
for actual rounds). -/
structure Round where
  deployed : List Nat

/-- MiningStrategy enum from ore_test2_optimized/src/main.rs, with the field
order of the source. -/
inductive MiningStrategy where
  | threshold (threshold_sol : ℚ) (amount_sol : ℚ) (min_squares : Nat)
      (pick_squares : Nat) (start_before_seconds : ℚ) (remaining_slots : Nat)
  | optimized (amount_sol : ℚ) (min_squares : Nat) (pick_squares : Nat)
      (start_before_seconds : ℚ) (remaining_slots : Nat)

/-- Insertion of a pair into a list sorted ascending by the second (value)
component, placed before the first element of no smaller value. -/
def insert_by_val (x : Nat × ℚ) : List (Nat × ℚ) → List (Nat × ℚ)
  | [] => [x]
  | y :: ys => if x.2 ≤ y.2 then x :: y :: ys else y :: insert_by_val x ys

/-- Stable ascending sort by the value component: the semantics of the source
line `candidates.sort_by(|a, b| a.1.partial_cmp(&b.1).unwrap())` (Rust
`sort_by` is a stable sort; all values are finite so `partial_cmp` is the
total ascending order on the values). -/
def sort_by_val : List (Nat × ℚ) → List (Nat × ℚ)
  | [] => []
  | x :: xs => insert_by_val x (sort_by_val xs)

/-- The enumerated squares of a round with their deployed amount in SOL:
`round.deployed.iter().enumerate().map(|(i, &lamports)| (i, lamports_to_sol(lamports)))`. -/
def all_squares (round : Round) : List (Nat × ℚ) :=
  round.deployed.enum.map (fun p => (p.1, lamports_to_sol p.2))

/-- Squares whose deployed SOL amount is strictly below the given threshold:
the `filter(|(_, v)| *v < *threshold_sol)` step of `select_squares`. -/
def threshold_candidates (round : Round) (threshold_sol : ℚ) : List (Nat × ℚ) :=
  (all_squares round).filter (fun p => decide (p.2 < threshold_sol))

/-- Dynamic threshold of the Optimized strategy:
`(total_sol * 0.036) - 0.005` where `total_sol` is the total deployed amount
converted to SOL. -/
def dynamic_threshold (round : Round) : ℚ :=
  lamports_to_sol round.deployed.sum * 0.036 - 0.005

/-- select_squares from ore_test2_optimized/src/main.rs. The source returns
`Result<Option<Vec<usize>>, _>` but is `Ok` on every path, so the embedding
returns the `Option` directly: `none` is the "no action" outcome. -/
def select_squares (round : Round) (strategy : MiningStrategy) : Option (List Nat) :=
  match strategy with
  | MiningStrategy.threshold threshold_sol _ min_squares pick_squares _ _ =>
    let candidates := threshold_candidates round threshold_sol
    if min_squares ≤ candidates.length then
      some (((sort_by_val candidates).take pick_squares).map Prod.fst)
    else none
  | MiningStrategy.optimized _ min_squares pick_squares _ _ =>
    let candidates := threshold_candidates round (dynamic_threshold round)
    if min_squares ≤ candidates.length then
      some (((sort_by_val candidates).take pick_squares).map Prod.fst)
    else none

/-- Deployed SOL amount of square `i` of a round (0 outside the board), used
to state ordering properties of the selected index list. -/
def sol_at (round : Round) (i : Nat) : ℚ := lamports_to_sol (round.deployed.getD i 0)

/-- Ascending order by deployed amount with ties broken by original index:
the order in which the stable sort of `select_squares` emits the candidate
squares. -/
def val_idx_lt (a b : Nat × ℚ) : Prop :=
  a.2 < b.2 ∨ (a.2 = b.2 ∧ a.1 < b.1)

/-- One step of the selection-mask construction in `deploy_with_dual_channel`:
`if idx < 25 { squares_array[idx] = true; }` (out-of-range indices leave the
array unchanged; `List.set` is the in-bounds array store). -/
def mask_step (arr : List Bool) (idx : Nat) : List Bool :=
  if idx < 25 then arr.set idx true else arr

/-- The 25-slot boolean selection mask built by `deploy_with_dual_channel`
from the chosen square indices, starting from `[false; 25]`. -/
def build_squares_mask (squares : List Nat) : List Bool :=
  squares.foldl mask_step (List.replicate 25 false)

/-- Observable events of one `deploy_with_dual_channel` call, in program
order: completed submission of the checkpoint transaction, completed
submission of the deploy transaction over RPC (channel A), the log line
emitted when the RPC submission returned a signature, the spawn of the
detached Jito task (channel B), and the log line the detached task emits when
its submission fails. -/
inductive DeployEvent where
  | submitCheckpoint
  | submitDeployRpc
  | logRpcSuccess (sig : String)
  | spawnJito
  | logJitoFailure (msg : String)
deriving DecidableEq

/-- Outcomes of the three network interactions a `deploy_with_dual_channel`
call can perform, supplied as an oracle: the result of submitting the
checkpoint transaction, the result of submitting the deploy transaction over
RPC, and the result of the detached Jito-bundle submission. -/
structure DeployEnv where
  checkpointResult : Except String String
  rpcResult : Except String String
  jitoResult : Except String Unit

/-- Event trace of the part of `deploy_with_dual_channel` after the optional
checkpoint: the RPC submission (whose result is inspected only to log the
signature on success) followed by spawning the detached Jito task (whose
failure is only logged inside the spawned task). -/
def deploy_tail (env : DeployEnv) : List DeployEvent :=
  (match env.rpcResult with
    | Except.ok sig => [DeployEvent.submitDeployRpc, DeployEvent.logRpcSuccess sig]
    | Except.error _ => [DeployEvent.submitDeployRpc])
  ++
  (match env.jitoResult with
    | Except.ok _ => [DeployEvent.spawnJito]
    | Except.error e => [DeployEvent.spawnJito, DeployEvent.logJitoFailure e])

/-- deploy_with_dual_channel from ore_test2_optimized/src/main.rs, as a
function from the snapshot round ids, the selected squares and the network
oracle to the event trace and the returned result. If
`snapshot.miner.round_id < snapshot.board.round_id` the checkpoint
transaction is submitted first and an error of that submission is returned
immediately (the `?` operator); otherwise the deploy transaction is submitted
over RPC, the RPC result is ignored except for logging on success, the Jito
task is spawned detached, and the function returns `Ok(())`. -/
def deploy_with_dual_channel (minerRoundId boardRoundId : Nat) (squares : List Nat)
    (env : DeployEnv) : List DeployEvent × Except String Unit :=
  let _squares_array := build_squares_mask squares
  if minerRoundId < boardRoundId then
    match env.checkpointResult with
    | Except.error e => ([DeployEvent.submitCheckpoint], Except.error e)
    | Except.ok _ => (DeployEvent.submitCheckpoint :: deploy_tail env, Except.ok ())
  else
    (deploy_tail env, Except.ok ())

/-- Decidable substring test (Rust `str::contains` on string literals). -/
def is_substring (pat s : String) : Bool :=
  (List.range (s.length + 1)).any
    (fun i => (s.toList.drop i).take pat.length == pat.toList)

/-- The Jito error message treated as success-equivalent in jito.rs. -/
def already_processed_msg : String := "bundle contains an already processed transaction"

/-- Log classification of one send_bundle call in jito.rs. -/
inductive BundleLog where
  | success
  | alreadyProcessed
  | failure (msg : String)
deriving DecidableEq

/-- send_bundle from ore_test2_optimized/src/jito.rs as a function of the
outcome of the underlying `sendBundle` JSON-RPC request: every outcome is
only logged (success; the already-processed error as success-equivalent; any
other error as a failure line) and the function returns `Ok(())` on all
paths. -/
def send_bundle (outcome : Except String String) : BundleLog × Except String Unit :=
  (match outcome with
    | Except.ok _ => BundleLog.success
    | Except.error e =>
      if is_substring already_processed_msg e then BundleLog.alreadyProcessed
      else BundleLog.failure e,
   Except.ok ())

deriving instance DecidableEq for Except

/-- ASCII lowercasing of an error message (Rust `str::to_lowercase`),
character by character. -/
def to_lower_str (s : String) : String := String.mk (s.data.map Char.toLower)

/-- Retryable-error classification in submit_transaction_with_ixs
(utils.rs): the lowercased message contains "blockhash", "timeout" or
"connection". -/
def is_retryable_msg (e : String) : Bool :=
  is_substring "blockhash" (to_lower_str e) || is_substring "timeout" (to_lower_str e)
    || is_substring "connection" (to_lower_str e)

/-- Network oracle for submit_transaction_with_ixs: per loop iteration, the
result of `get_latest_blockhash` and the result of
`send_transaction_with_config`. -/
structure Transport where
  blockhash : Nat → Except String Unit
  send : Nat → Except String String

/-- The retry loop of submit_transaction_with_ixs (utils.rs), with fuel for
termination (the loop body runs at most `maxRetries + 1` times because
`retry_count` grows on every continue and is bounded by `maxRetries`).
Arguments: iteration index, current `retry_count`, fuel. Returns the total
backoff delay in seconds together with the result. A blockhash fetch failure
with retries left, and a retryable send failure with retries left, wait
`2 ^ (retry_count + 1 - 1) = 2 ^ retry_count` seconds and retry; any other
failure is returned immediately. -/
def submit_loop (tr : Transport) (maxRetries : Nat) :
    Nat → Nat → Nat → Nat × Except String String
  | _, _, 0 => (0, Except.error "out of fuel")
  | iter, retryCount, fuel + 1 =>
    match tr.blockhash iter with
    | Except.error e =>
      if retryCount < maxRetries then
        let next := submit_loop tr maxRetries (iter + 1) (retryCount + 1) fuel
        (2 ^ retryCount + next.1, next.2)
      else (0, Except.error e)
    | Except.ok _ =>
      match tr.send iter with
      | Except.ok signature => (0, Except.ok signature)
      | Except.error e =>
        if is_retryable_msg e && decide (retryCount < maxRetries) then
          let next := submit_loop tr maxRetries (iter + 1) (retryCount + 1) fuel
          (2 ^ retryCount + next.1, next.2)
        else (0, Except.error e)

/-- submit_transaction_with_ixs (utils.rs): the retry loop with the fixed
`max_retries = 4` of the source, starting at `retry_count = 0` (fuel 5 covers
every reachable iteration). -/
def submit_transaction_with_ixs (tr : Transport) : Nat × Except String String :=
  submit_loop tr 4 0 0 5

/-- Mint identifier of SOL in the Jupiter price response (price.rs). -/
def sol_mint_id : String := "So11111111111111111111111111111111111111112"

/-- Mint identifier of ORE in the Jupiter price response (price.rs). -/
def ore_mint_id : String := "oreoU2P8bN6jkk3jbaiVxYnG1dCXcYxwhwyK9jSybcp"

/-- get_price from price.rs as a function of the fetched-and-parsed response:
`resp` is the outcome of the HTTPS GET plus JSON decode (an association list
from asset id to its usd price); the function returns the pair
`(ore_usd, sol_usd)` when both required ids are present and fails otherwise. -/
def get_price (resp : Except String (List (String × ℚ))) : Except String (ℚ × ℚ) :=
  match resp with
  | Except.error e => Except.error e
  | Except.ok prices =>
    match prices.lookup ore_mint_id, prices.lookup sol_mint_id with
    | some ore, some sol => Except.ok (ore, sol)
    | _, _ => Except.error "Failed to get prices from Jupiter API"

/-- The retry loop of get_price_with_retry (price.rs), with fuel as in
`submit_loop`. Arguments: attempt index, current `retries` counter, fuel.
Returns the number of attempts made, the total backoff delay in seconds
(`2 ^ (retries + 1 - 1) = 2 ^ retries` before each retry) and the result. -/
def price_loop (fetch : Nat → Except String (List (String × ℚ))) (maxRetries : Nat) :
    Nat → Nat → Nat → Nat × Nat × Except String (ℚ × ℚ)
  | _, _, 0 => (0, 0, Except.error "out of fuel")
  | attempt, retries, fuel + 1 =>
    match get_price (fetch attempt) with
    | Except.ok prices => (1, 0, Except.ok prices)
    | Except.error e =>
      if retries < maxRetries then
        let next := price_loop fetch maxRetries (attempt + 1) (retries + 1) fuel
        (1 + next.1, 2 ^ retries + next.2.1, next.2.2)
      else (1, 0, Except.error e)

/-- get_price_with_retry from price.rs: retry the fetch up to `maxRetries`
times with exponential backoff, starting with the `retries` counter at 0. -/
def get_price_with_retry (fetch : Nat → Except String (List (String × ℚ)))
    (maxRetries : Nat) : Nat × Nat × Except String (ℚ × ℚ) :=
  price_loop fetch maxRetries 0 0 (maxRetries + 1)

/-- The estimated-claimable computation of log_balance
(ore_test2_optimized/src/utils.rs): the `Numeric` fixed-point factors are
modelled as `ℚ` and `Numeric::to_u64` of a non-negative value as the floor.
If the treasury factor exceeds the miner factor, the accumulated factor times
`rewards_ore` is added to `refined_ore` (guarded by a non-negativity check);
otherwise `refined_ore` is left unchanged. All paths return `Ok`. -/
def log_balance_refined_ore (treasuryFactor minerFactor : ℚ)
    (rewards_ore refined_ore : Nat) : Except String Nat :=
  if minerFactor < treasuryFactor then
    let accumulated_rewards := treasuryFactor - minerFactor
    if 0 ≤ accumulated_rewards then
      Except.ok (refined_ore + (accumulated_rewards * (rewards_ore : ℚ)).floor.toNat)
    else
      Except.ok refined_ore
  else
    Except.ok refined_ore

/-- The estimated-claimable computation of get_balance (src/src/main.rs):
same computation, except that a negative accumulated value inside the guarded
branch panics, modelled as an error result. -/
def get_balance_refined_ore (treasuryFactor minerFactor : ℚ)
    (rewards_ore refined_ore : Nat) : Except String Nat :=
  if minerFactor < treasuryFactor then
    let accumulated_rewards := treasuryFactor - minerFactor
    if accumulated_rewards < 0 then
      Except.error "Accumulated rewards is negative"
    else
      Except.ok (refined_ore + (accumulated_rewards * (rewards_ore : ℚ)).floor.toNat)
  else
    Except.ok refined_ore

/-! ## Helper lemmas about the stable sort and the candidate list -/

theorem insert_by_val_perm (x : Nat × ℚ) :
    ∀ l : List (Nat × ℚ), (insert_by_val x l).Perm (x :: l)
  | [] => List.Perm.refl _
  | y :: ys => by
    unfold insert_by_val
    by_cases h : x.2 ≤ y.2
    · rw [if_pos h]
    · rw [if_neg h]
      exact ((insert_by_val_perm x ys).cons y).trans (List.Perm.swap x y ys)

theorem sort_by_val_perm : ∀ l : List (Nat × ℚ), (sort_by_val l).Perm l
  | [] => List.Perm.refl _
  | x :: xs => (insert_by_val_perm x (sort_by_val xs)).trans
      ((sort_by_val_perm xs).cons x)

theorem val_idx_lt_of_le_of_lt {a b : Nat × ℚ} (h2 : a.2 ≤ b.2) (h1 : a.1 < b.1) :
    val_idx_lt a b := by
  rcases lt_or_eq_of_le h2 with h | h
  · exact Or.inl h
  · exact Or.inr ⟨h, h1⟩

theorem val_idx_lt_le {a b : Nat × ℚ} (h : val_idx_lt a b) : a.2 ≤ b.2 := by
  rcases h with h | ⟨h, _⟩
  · exact le_of_lt h
  · exact le_of_eq h

theorem insert_by_val_pairwise :
    ∀ (l : List (Nat × ℚ)) (x : Nat × ℚ), l.Pairwise val_idx_lt →
      (∀ y ∈ l, x.1 < y.1) → (insert_by_val x l).Pairwise val_idx_lt
  | [], x, _, _ => by
    unfold insert_by_val
    exact List.pairwise_singleton _ _
  | y :: ys, x, hp, hidx => by
    unfold insert_by_val
    rcases List.pairwise_cons.mp hp with ⟨hy, hys⟩
    by_cases h : x.2 ≤ y.2
    · rw [if_pos h]
      refine List.pairwise_cons.mpr ⟨?_, hp⟩
      intro z hz
      rcases List.mem_cons.mp hz with rfl | hz2
      · exact val_idx_lt_of_le_of_lt h (hidx z (List.mem_cons_self _ _))
      · exact val_idx_lt_of_le_of_lt (le_trans h (val_idx_lt_le (hy z hz2)))
          (hidx z (List.mem_cons_of_mem _ hz2))
    · rw [if_neg h]
      refine List.pairwise_cons.mpr
        ⟨?_, insert_by_val_pairwise ys x hys
          (fun z hz => hidx z (List.mem_cons_of_mem _ hz))⟩
      intro z hz
      rcases List.mem_cons.mp ((insert_by_val_perm x ys).mem_iff.mp hz) with rfl | hz2
      · exact Or.inl (lt_of_not_le h)
      · exact hy z hz2

theorem sort_by_val_pairwise :
    ∀ l : List (Nat × ℚ), l.Pairwise (fun a b => a.1 < b.1) →
      (sort_by_val l).Pairwise val_idx_lt
  | [], _ => by
    unfold sort_by_val
    exact List.Pairwise.nil
  | x :: xs, hp => by
    unfold sort_by_val
    rcases List.pairwise_cons.mp hp with ⟨hx, hxs⟩
    exact insert_by_val_pairwise (sort_by_val xs) x (sort_by_val_pairwise xs hxs)
      (fun y hy => hx y ((sort_by_val_perm xs).mem_iff.mp hy))

theorem enum_pairwise_fst {α : Type} (l : List α) :
    l.enum.Pairwise (fun a b => a.1 < b.1) := by
  rw [List.pairwise_iff_getElem]
  intro i j hi hj hij
  rw [List.getElem_enum, List.getElem_enum]
  simpa using hij

theorem all_squares_pairwise_fst (r : Round) :
    (all_squares r).Pairwise (fun a b => a.1 < b.1) := by
  unfold all_squares
  exact List.pairwise_map.mpr (enum_pairwise_fst r.deployed)

theorem mem_all_squares {r : Round} {p : Nat × ℚ} (hp : p ∈ all_squares r) :
    p.1 < r.deployed.length ∧ p.2 = sol_at r p.1
      ∧ r.deployed[p.1]? = some (r.deployed.getD p.1 0) := by
  unfold all_squares at hp
  rcases List.mem_map.mp hp with ⟨⟨i, a⟩, hmem, rfl⟩
  have h := List.mem_enumFrom (show (i, a) ∈ List.enumFrom 0 r.deployed from hmem)
  rcases h with ⟨-, hlt, hval⟩
  simp only [Nat.zero_add, Nat.sub_zero] at hlt hval
  have hget : r.deployed[i]? = some r.deployed[i] := List.getElem?_eq_getElem hlt
  have hgetD : r.deployed.getD i 0 = r.deployed[i] := by
    rw [List.getD_eq_getElem?_getD, hget]
    rfl
  refine ⟨hlt, ?_, ?_⟩
  · simp only [sol_at, hgetD, hval]
  · rw [hget, hgetD]

theorem mem_threshold_candidates {r : Round} {thr : ℚ} {p : Nat × ℚ} :
    p ∈ threshold_candidates r thr ↔ p ∈ all_squares r ∧ p.2 < thr := by
  unfold threshold_candidates
  rw [List.mem_filter]
  simp

theorem threshold_candidates_pairwise_fst (r : Round) (thr : ℚ) :
    (threshold_candidates r thr).Pairwise (fun a b => a.1 < b.1) :=
  List.Pairwise.sublist (List.filter_sublist _) (all_squares_pairwise_fst r)

theorem lamports_to_sol_nonneg (l : Nat) : 0 ≤ lamports_to_sol l := by
  unfold lamports_to_sol
  positivity

theorem select_squares_threshold_eq (r : Round) (thr amt sbs : ℚ) (minS pickS rs : Nat) :
    select_squares r (MiningStrategy.threshold thr amt minS pickS sbs rs)
      = if minS ≤ (threshold_candidates r thr).length then
          some (((sort_by_val (threshold_candidates r thr)).take pickS).map Prod.fst)
        else none := rfl

theorem select_squares_optimized_eq (r : Round) (amt sbs : ℚ) (minS pickS rs : Nat) :
    select_squares r (MiningStrategy.optimized amt minS pickS sbs rs)
      = if minS ≤ (threshold_candidates r (dynamic_threshold r)).length then
          some (((sort_by_val (threshold_candidates r (dynamic_threshold r))).take pickS).map
            Prod.fst)
        else none := rfl

theorem picked_squares_spec {r : Round} {thr : ℚ} {pickS : Nat} {l : List Nat}
    (hl : ((sort_by_val (threshold_candidates r thr)).take pickS).map Prod.fst = l) :
    l.length = min pickS (threshold_candidates r thr).length
      ∧ (∀ i ∈ l, ∃ lam, r.deployed[i]? = some lam ∧ lamports_to_sol lam < thr)
      ∧ l.Pairwise (fun i j =>
          sol_at r i < sol_at r j ∨ (sol_at r i = sol_at r j ∧ i < j)) := by
  subst hl
  refine ⟨?_, ?_, ?_⟩
  · rw [List.length_map, List.length_take, (sort_by_val_perm _).length_eq]
  · intro i hi
    rcases List.mem_map.mp hi with ⟨p, hp, rfl⟩
    have hp3 : p ∈ threshold_candidates r thr :=
      (sort_by_val_perm _).mem_iff.mp (List.mem_of_mem_take hp)
    rcases mem_threshold_candidates.mp hp3 with ⟨hall, hltv⟩
    rcases mem_all_squares hall with ⟨_, hval, hsome⟩
    refine ⟨r.deployed.getD p.1 0, hsome, ?_⟩
    have : sol_at r p.1 < thr := hval ▸ hltv
    exact this
  · have hsorted := sort_by_val_pairwise _ (threshold_candidates_pairwise_fst r thr)
    have htake := List.Pairwise.sublist (List.take_sublist pickS _) hsorted
    rw [List.pairwise_map]
    refine List.Pairwise.imp_of_mem ?_ htake
    intro a b ha hb hr
    have ha2 := (mem_all_squares
      (mem_threshold_candidates.mp
        ((sort_by_val_perm _).mem_iff.mp (List.mem_of_mem_take ha))).1).2.1
    have hb2 := (mem_all_squares
      (mem_threshold_candidates.mp
        ((sort_by_val_perm _).mem_iff.mp (List.mem_of_mem_take hb))).1).2.1
    rcases hr with h | ⟨h1, h2⟩
    · exact Or.inl (ha2 ▸ hb2 ▸ h)
    · exact Or.inr ⟨ha2 ▸ hb2 ▸ h1, h2⟩

/-! ## C1: FixedThreshold selection -/

/-- C1: for every Round and FixedThreshold configuration, `select_squares`
returns `some` exactly when the number of squares whose deployed amount in
SOL is strictly below the threshold is at least `min_squares`; the returned
list has length `min(pick_squares, candidate_count)`, every returned index
has deployed amount strictly below the threshold, and the list is ordered
ascending by deployed amount with ties broken by the original index (the
stable-sort order). -/
theorem C1_select_squares_threshold (r : Round) (thr amt sbs : ℚ)
    (minS pickS rs : Nat) (l : List Nat) :
    ((select_squares r (MiningStrategy.threshold thr amt minS pickS sbs rs)).isSome
        ↔ minS ≤ (threshold_candidates r thr).length)
    ∧ (select_squares r (MiningStrategy.threshold thr amt minS pickS sbs rs) = some l →
        l.length = min pickS (threshold_candidates r thr).length
        ∧ (∀ i ∈ l, ∃ lam, r.deployed[i]? = some lam ∧ lamports_to_sol lam < thr)
        ∧ l.Pairwise (fun i j =>
            sol_at r i < sol_at r j ∨ (sol_at r i = sol_at r j ∧ i < j))) := by
  constructor
  · rw [select_squares_threshold_eq]
    by_cases h : minS ≤ (threshold_candidates r thr).length
    · simp [h]
    · simp [h]
  · intro hsome
    rw [select_squares_threshold_eq] at hsome
    by_cases h : minS ≤ (threshold_candidates r thr).length
    · rw [if_pos h] at hsome
      exact picked_squares_spec (Option.some.inj hsome)
    · rw [if_neg h] at hsome
      exact absurd hsome (by simp)

/-- Witness for C1 at the scenario of the specification: 13 squares at
0.02 SOL followed by 12 squares at 0.005 SOL, threshold 0.01 SOL,
min_squares 12, pick_squares 5; the selection succeeds and picks 5 squares. -/
theorem C1_select_squares_threshold_witness :
    (select_squares (Round.mk (List.replicate 13 20000000 ++ List.replicate 12 5000000))
        (MiningStrategy.threshold (1 / 100) (1 / 100) 12 5 40 15)).isSome
    ∧ [13, 14, 15, 16, 17].length
        = min 5 (threshold_candidates
            (Round.mk (List.replicate 13 20000000 ++ List.replicate 12 5000000))
            (1 / 100)).length :=
  ⟨(C1_select_squares_threshold
      (Round.mk (List.replicate 13 20000000 ++ List.replicate 12 5000000))
      (1 / 100) (1 / 100) 40 12 5 15 []).1.mpr (by decide),
   ((C1_select_squares_threshold
      (Round.mk (List.replicate 13 20000000 ++ List.replicate 12 5000000))
      (1 / 100) (1 / 100) 40 12 5 15 [13, 14, 15, 16, 17]).2 (by decide)).1⟩

/-! ## C2: DynamicOptimized threshold -/

/-- C2 counterexample: with `min_squares = 0` the claim fails — on the
all-zero round the dynamic threshold is non-positive, yet `select_squares`
returns `some []` (an empty deployment action) instead of "no action". -/
theorem C2_dynamic_threshold_counterexample :
    dynamic_threshold (Round.mk (List.replicate 25 0)) ≤ 0
    ∧ select_squares (Round.mk (List.replicate 25 0))
        (MiningStrategy.optimized (1 / 100) 0 5 40 15) = some [] := by
  decide

/-- C2 (amended): the engine computes
`dynamic_threshold = total_sol * 0.036 - 0.005`, and whenever the dynamic
threshold is non-positive and `min_squares ≥ 1`, `select_squares` returns
"no action"; a non-positive threshold never makes any square qualify. -/
theorem C2_dynamic_threshold_no_action (r : Round) (amt sbs : ℚ)
    (minS pickS rs : Nat) (hmin : 1 ≤ minS) (hthr : dynamic_threshold r ≤ 0) :
    dynamic_threshold r = lamports_to_sol r.deployed.sum * 0.036 - 0.005
    ∧ select_squares r (MiningStrategy.optimized amt minS pickS sbs rs) = none := by
  refine ⟨rfl, ?_⟩
  have hempty : threshold_candidates r (dynamic_threshold r) = [] := by
    rw [threshold_candidates, List.filter_eq_nil_iff]
    intro p hp
    have hnn : 0 ≤ p.2 := by
      have hv := (mem_all_squares hp).2.1
      rw [hv]
      exact lamports_to_sol_nonneg _
    simp only [decide_eq_true_eq]
    exact not_lt.mpr (le_trans hthr hnn)
  rw [select_squares_optimized_eq, hempty]
  simp only [List.length_nil]
  rw [if_neg (by omega)]

/-- Witness for C2 (amended): on the all-zero round with `min_squares = 12`
the dynamic threshold is non-positive and the engine takes no action. -/
theorem C2_dynamic_threshold_no_action_witness :
    select_squares (Round.mk (List.replicate 25 0))
        (MiningStrategy.optimized (1 / 100) 12 5 40 15) = none
    ∧ dynamic_threshold (Round.mk (List.replicate 25 0)) ≤ 0 :=
  ⟨(C2_dynamic_threshold_no_action (Round.mk (List.replicate 25 0)) (1 / 100) 40 12 5 15
      (by decide) (by decide)).2, by decide⟩

/-! ## C3, C6, C9, C10: the dual-channel submission pipeline -/

/-- C3: whenever the miner round id is behind the board round id, the
checkpoint submission is the first event of the pipeline (it completes,
by success or failure, before the deploy instruction is attempted: a deploy
submission event can only occur when the checkpoint submission succeeded),
and a checkpoint failure is returned to the caller with no deploy attempt. -/
theorem C3_checkpoint_before_deploy (mr br : Nat) (squares : List Nat)
    (env : DeployEnv) (h : mr < br) :
    ((deploy_with_dual_channel mr br squares env).1.head?
        = some DeployEvent.submitCheckpoint)
    ∧ (DeployEvent.submitDeployRpc ∈ (deploy_with_dual_channel mr br squares env).1 →
        env.checkpointResult.isOk = true)
    ∧ (∀ e, env.checkpointResult = Except.error e →
        deploy_with_dual_channel mr br squares env
          = ([DeployEvent.submitCheckpoint], Except.error e)) := by
  have heq : deploy_with_dual_channel mr br squares env
      = (match env.checkpointResult with
          | Except.error e => ([DeployEvent.submitCheckpoint], Except.error e)
          | Except.ok _ =>
            (DeployEvent.submitCheckpoint :: deploy_tail env, Except.ok ())) := by
    unfold deploy_with_dual_channel
    rw [if_pos h]
  rcases hck : env.checkpointResult with e | s <;> rw [hck] at heq <;> rw [heq]
  · refine ⟨rfl, ?_, ?_⟩
    · intro hmem
      simp at hmem
    · intro e2 he2
      cases he2
      rfl
  · refine ⟨rfl, fun _ => rfl, ?_⟩
    intro e2 he2
    exact Except.noConfusion he2

/-- Witness for C3: with the miner one round behind and a failing checkpoint
submission, the call performs only the checkpoint submission and surfaces its
error. -/
theorem C3_checkpoint_before_deploy_witness :
    deploy_with_dual_channel 1 2 [0, 1]
        (DeployEnv.mk (Except.error "checkpoint failed") (Except.ok "sig") (Except.ok ()))
      = ([DeployEvent.submitCheckpoint], Except.error "checkpoint failed")
    ∧ (deploy_with_dual_channel 1 2 [0, 1]
        (DeployEnv.mk (Except.error "checkpoint failed") (Except.ok "sig")
          (Except.ok ()))).1.head? = some DeployEvent.submitCheckpoint :=
  ⟨(C3_checkpoint_before_deploy 1 2 [0, 1]
      (DeployEnv.mk (Except.error "checkpoint failed") (Except.ok "sig") (Except.ok ()))
      (by decide)).2.2 "checkpoint failed" rfl,
   (C3_checkpoint_before_deploy 1 2 [0, 1]
      (DeployEnv.mk (Except.error "checkpoint failed") (Except.ok "sig") (Except.ok ()))
      (by decide)).1⟩

/-- C9: a failure of the direct-channel (RPC) submission is discarded: the
pipeline returns `Ok` whenever the checkpoint step succeeds or is not needed,
even when the RPC submission errors, and the RPC result is inspected only on
success (no success log line is emitted for a failed RPC submission). -/
theorem C9_rpc_error_discarded (mr br : Nat) (squares : List Nat)
    (s e sig : String) (j : Except String Unit) :
    ((deploy_with_dual_channel mr br squares
        (DeployEnv.mk (Except.ok s) (Except.error e) j)).2 = Except.ok ())
    ∧ (¬ mr < br → ∀ ck, (deploy_with_dual_channel mr br squares
        (DeployEnv.mk ck (Except.error e) j)).2 = Except.ok ())
    ∧ (DeployEvent.logRpcSuccess sig ∉ (deploy_with_dual_channel mr br squares
        (DeployEnv.mk (Except.ok s) (Except.error e) j)).1) := by
  refine ⟨?_, ?_, ?_⟩
  · unfold deploy_with_dual_channel
    by_cases h : mr < br
    · rw [if_pos h]
    · rw [if_neg h]
  · intro h ck
    unfold deploy_with_dual_channel
    rw [if_neg h]
  · unfold deploy_with_dual_channel deploy_tail
    by_cases h : mr < br
    · rw [if_pos h]
      rcases j with je | ju <;> simp
    · rw [if_neg h]
      rcases j with je | ju <;> simp

/-- Witness for C9: with a succeeded checkpoint and a failing RPC submission
the pipeline still returns `Ok`, and no RPC success line is logged. -/
theorem C9_rpc_error_discarded_witness :
    ((deploy_with_dual_channel 1 2 [3]
        (DeployEnv.mk (Except.ok "cksig") (Except.error "simulation failed")
          (Except.ok ()))).2 = Except.ok ())
    ∧ (DeployEvent.logRpcSuccess "sig" ∉ (deploy_with_dual_channel 1 2 [3]
        (DeployEnv.mk (Except.ok "cksig") (Except.error "simulation failed")
          (Except.ok ()))).1) :=
  ⟨(C9_rpc_error_discarded 1 2 [3] "cksig" "simulation failed" "sig" (Except.ok ())).1,
   (C9_rpc_error_discarded 1 2 [3] "cksig" "simulation failed" "sig" (Except.ok ())).2.2⟩

/-- C6: the relay channel is fire-and-forget — the result returned by
`deploy_with_dual_channel` does not depend on the outcome of the detached
Jito submission (in particular a relay failure never fails the deploy call),
and inside `send_bundle` every request outcome is only logged and the
function returns `Ok`, classifying an error containing
"bundle contains an already processed transaction" as success-equivalent. -/
theorem C6_relay_fire_and_forget (mr br : Nat) (squares : List Nat)
    (ck rpc : Except String String) (j1 j2 : Except String Unit)
    (outcome : Except String String) (s : String) :
    ((deploy_with_dual_channel mr br squares (DeployEnv.mk ck rpc j1)).2
        = (deploy_with_dual_channel mr br squares (DeployEnv.mk ck rpc j2)).2)
    ∧ ((send_bundle outcome).2 = Except.ok ())
    ∧ (∀ e, outcome = Except.error e →
        is_substring already_processed_msg e = true →
        (send_bundle outcome).1 = BundleLog.alreadyProcessed)
    ∧ (∀ e, (deploy_with_dual_channel mr br squares
        (DeployEnv.mk (Except.ok s) rpc (Except.error e))).2 = Except.ok ()) := by
  refine ⟨?_, rfl, ?_, ?_⟩
  · simp only [deploy_with_dual_channel]
    by_cases h : mr < br
    · simp only [if_pos h]
      rcases ck with e | s2 <;> rfl
    · simp only [if_neg h]
  · intro e he hsub
    subst he
    simp [send_bundle, hsub]
  · intro e
    simp only [deploy_with_dual_channel]
    by_cases h : mr < br
    · simp only [if_pos h]
    · simp only [if_neg h]

/-- Witness for C6: a failing relay outcome yields the same `Ok` result as a
succeeding one, and the already-processed error is logged as
success-equivalent. -/
theorem C6_relay_fire_and_forget_witness :
    ((deploy_with_dual_channel 1 2 [3]
        (DeployEnv.mk (Except.ok "cksig") (Except.ok "sig")
          (Except.error "relay down"))).2
      = (deploy_with_dual_channel 1 2 [3]
        (DeployEnv.mk (Except.ok "cksig") (Except.ok "sig") (Except.ok ()))).2)
    ∧ ((send_bundle (Except.error
        "bundle contains an already processed transaction")).1
      = BundleLog.alreadyProcessed) :=
  ⟨(C6_relay_fire_and_forget 1 2 [3] (Except.ok "cksig") (Except.ok "sig")
      (Except.error "relay down") (Except.ok ())
      (Except.error "bundle contains an already processed transaction") "cksig").1,
   (C6_relay_fire_and_forget 1 2 [3] (Except.ok "cksig") (Except.ok "sig")
      (Except.error "relay down") (Except.ok ())
      (Except.error "bundle contains an already processed transaction") "cksig").2.2.1
      "bundle contains an already processed transaction" rfl (by decide)⟩

theorem mask_fold_length :
    ∀ (l : List Nat) (arr : List Bool), (l.foldl mask_step arr).length = arr.length
  | [], _ => rfl
  | x :: xs, arr => by
    rw [List.foldl_cons, mask_fold_length xs]
    unfold mask_step
    by_cases h : x < 25
    · rw [if_pos h, List.length_set]
    · rw [if_neg h]

theorem mask_step_getD (arr : List Bool) (x j : Nat) (hlen : arr.length = 25)
    (hj : j < 25) :
    ((mask_step arr x).getD j false = true
      ↔ (arr.getD j false = true ∨ (j = x ∧ x < 25))) := by
  unfold mask_step
  by_cases h : x < 25
  · rw [if_pos h]
    rw [List.getD_eq_getElem?_getD, List.getElem?_set, List.getD_eq_getElem?_getD]
    by_cases hxj : x = j
    · subst hxj
      rw [if_pos rfl, if_pos (hlen ▸ hj)]
      simp [h]
    · rw [if_neg hxj]
      have : ¬(j = x ∧ x < 25) := fun hc => hxj hc.1.symm
      simp [this]
  · rw [if_neg h]
    have : ¬(j = x ∧ x < 25) := fun hc => h hc.2
    simp [this]

theorem mask_fold_getD :
    ∀ (l : List Nat) (arr : List Bool), arr.length = 25 → ∀ j, j < 25 →
      ((l.foldl mask_step arr).getD j false = true
        ↔ (arr.getD j false = true ∨ j ∈ l.filter (fun i => decide (i < 25))))
  | [], arr, _, j, _ => by simp
  | x :: xs, arr, hlen, j, hj => by
    rw [List.foldl_cons]
    have hlen2 : (mask_step arr x).length = 25 := by
      unfold mask_step
      by_cases h : x < 25
      · rw [if_pos h, List.length_set, hlen]
      · rw [if_neg h, hlen]
    rw [mask_fold_getD xs (mask_step arr x) hlen2 j hj, mask_step_getD arr x j hlen hj,
      List.filter_cons]
    by_cases h : x < 25
    · have hd : decide (x < 25) = true := by simp [h]
      rw [if_pos hd, List.mem_cons]
      tauto
    · have hd : ¬decide (x < 25) = true := by simp [h]
      rw [if_neg hd]
      tauto

theorem mask_fold_filter :
    ∀ (l : List Nat) (arr : List Bool),
      l.foldl mask_step arr = (l.filter (fun i => decide (i < 25))).foldl mask_step arr
  | [], _ => rfl
  | x :: xs, arr => by
    rw [List.foldl_cons, List.filter_cons]
    by_cases h : x < 25
    · have hd : decide (x < 25) = true := by simp [h]
      rw [if_pos hd, List.foldl_cons]
      exact mask_fold_filter xs (mask_step arr x)
    · have hd : ¬decide (x < 25) = true := by simp [h]
      rw [if_neg hd]
      have hstep : mask_step arr x = arr := by
        unfold mask_step
        rw [if_neg h]
      rw [hstep]
      exact mask_fold_filter xs arr

/-- C10: the 25-slot selection mask built by `deploy_with_dual_channel` has
length 25, marks exactly the listed indices below 25, and silently ignores
out-of-range indices (the mask equals the mask of the filtered list, and the
guarded store never goes out of bounds). -/
theorem C10_squares_mask (squares : List Nat) (j : Nat) (hj : j < 25) :
    (build_squares_mask squares).length = 25
    ∧ ((build_squares_mask squares).getD j false = true ↔ j ∈ squares)
    ∧ build_squares_mask squares
        = build_squares_mask (squares.filter (fun i => decide (i < 25))) := by
  refine ⟨?_, ?_, ?_⟩
  · rw [build_squares_mask, mask_fold_length, List.length_replicate]
  · rw [build_squares_mask,
      mask_fold_getD squares _ (List.length_replicate 25 false) j hj]
    have hrep : (List.replicate 25 false).getD j false = false := by
      rw [List.getD_eq_getElem?_getD, List.getElem?_replicate]
      by_cases h : j < 25
      · rw [if_pos h]
        rfl
      · rw [if_neg h]
        rfl
    rw [hrep]
    simp only [Bool.false_eq_true, false_or, List.mem_filter, decide_eq_true_eq]
    exact ⟨fun h => h.1, fun h => ⟨h, hj⟩⟩
  · exact mask_fold_filter squares _

/-- Witness for C10 at `squares = [3, 30, 3]` and `j = 3`: the mask has
length 25, index 3 is set, and the out-of-range index 30 is ignored. -/
theorem C10_squares_mask_witness :
    (build_squares_mask [3, 30, 3]).length = 25
    ∧ ((build_squares_mask [3, 30, 3]).getD 3 false = true ↔ 3 ∈ [3, 30, 3])
    ∧ build_squares_mask [3, 30, 3]
        = build_squares_mask ([3, 30, 3].filter (fun i => decide (i < 25))) :=
  C10_squares_mask [3, 30, 3] 3 (by decide)

/-! ## C4: direct-channel retry policy -/

theorem submit_loop_ok (tr : Transport) (m : Nat) (E : Nat → String) (sig : String) :
    ∀ (k iter rc fuel : Nat), k < fuel → rc + k ≤ m →
      (∀ j, j < k → tr.blockhash (iter + j) = Except.ok ()
        ∧ tr.send (iter + j) = Except.error (E (iter + j))
        ∧ is_retryable_msg (E (iter + j)) = true) →
      tr.blockhash (iter + k) = Except.ok () →
      tr.send (iter + k) = Except.ok sig →
      submit_loop tr m iter rc fuel
        = (∑ j ∈ Finset.range k, 2 ^ (rc + j), Except.ok sig) := by
  intro k
  induction k with
  | zero =>
    intro iter rc fuel hfuel _ _ hbh hsend
    rcases fuel with _ | fuel
    · exact absurd hfuel (Nat.not_lt_zero _)
    · rw [Nat.add_zero] at hbh hsend
      unfold submit_loop
      rw [hbh, hsend]
      simp
  | succ k ih =>
    intro iter rc fuel hfuel hm hfail hbh hsend
    rcases fuel with _ | fuel
    · exact absurd hfuel (Nat.not_lt_zero _)
    · have h0 := hfail 0 (Nat.succ_pos k)
      rw [Nat.add_zero] at h0
      have hrc : rc < m := by omega
      have hshift : ∀ j, j < k → tr.blockhash (iter + 1 + j) = Except.ok ()
          ∧ tr.send (iter + 1 + j) = Except.error (E (iter + 1 + j))
          ∧ is_retryable_msg (E (iter + 1 + j)) = true := by
        intro j hj
        have := hfail (j + 1) (by omega)
        rwa [show iter + (j + 1) = iter + 1 + j from by omega] at this
      have hbh2 : tr.blockhash (iter + 1 + k) = Except.ok () := by
        rwa [show iter + (k + 1) = iter + 1 + k from by omega] at hbh
      have hsend2 : tr.send (iter + 1 + k) = Except.ok sig := by
        rwa [show iter + (k + 1) = iter + 1 + k from by omega] at hsend
      have hsum : (∑ j ∈ Finset.range (k + 1), 2 ^ (rc + j))
          = 2 ^ rc + ∑ j ∈ Finset.range k, 2 ^ (rc + 1 + j) := by
        rw [Finset.sum_range_succ' (fun j => 2 ^ (rc + j)) k, Nat.add_zero, Nat.add_comm]
        congr 1
        refine Finset.sum_congr rfl ?_
        intro x _
        congr 1
        omega
      have hcond : (is_retryable_msg (E iter) && decide (rc < m)) = true := by
        simp [h0.2.2, hrc]
      unfold submit_loop
      simp only [h0.1, h0.2.1]
      rw [if_pos hcond]
      rw [ih (iter + 1) (rc + 1) fuel (by omega) (by omega) hshift hbh2 hsend2]
      rw [hsum]

theorem submit_loop_exhaust (tr : Transport) (m : Nat) (E : Nat → String) :
    ∀ (k iter rc fuel : Nat), k < fuel → rc + k = m →
      (∀ j, j ≤ k → tr.blockhash (iter + j) = Except.ok ()
        ∧ tr.send (iter + j) = Except.error (E (iter + j))
        ∧ is_retryable_msg (E (iter + j)) = true) →
      submit_loop tr m iter rc fuel
        = (∑ j ∈ Finset.range k, 2 ^ (rc + j), Except.error (E (iter + k))) := by
  intro k
  induction k with
  | zero =>
    intro iter rc fuel hfuel hm hfail
    rcases fuel with _ | fuel
    · exact absurd hfuel (Nat.not_lt_zero _)
    · have h0 := hfail 0 (Nat.le_refl 0)
      rw [Nat.add_zero] at h0
      have hnl : ¬rc < m := by omega
      have hcond : ¬(is_retryable_msg (E iter) && decide (rc < m)) = true := by
        simp [hnl]
      unfold submit_loop
      simp only [h0.1, h0.2.1]
      rw [if_neg hcond]
      rw [Nat.add_zero]
      simp
  | succ k ih =>
    intro iter rc fuel hfuel hm hfail
    rcases fuel with _ | fuel
    · exact absurd hfuel (Nat.not_lt_zero _)
    · have h0 := hfail 0 (Nat.zero_le _)
      rw [Nat.add_zero] at h0
      have hrc : rc < m := by omega
      have hshift : ∀ j, j ≤ k → tr.blockhash (iter + 1 + j) = Except.ok ()
          ∧ tr.send (iter + 1 + j) = Except.error (E (iter + 1 + j))
          ∧ is_retryable_msg (E (iter + 1 + j)) = true := by
        intro j hj
        have := hfail (j + 1) (by omega)
        rwa [show iter + (j + 1) = iter + 1 + j from by omega] at this
      have hsum : (∑ j ∈ Finset.range (k + 1), 2 ^ (rc + j))
          = 2 ^ rc + ∑ j ∈ Finset.range k, 2 ^ (rc + 1 + j) := by
        rw [Finset.sum_range_succ' (fun j => 2 ^ (rc + j)) k, Nat.add_zero, Nat.add_comm]
        congr 1
        refine Finset.sum_congr rfl ?_
        intro x _
        congr 1
        omega
      have hcond : (is_retryable_msg (E iter) && decide (rc < m)) = true := by
        simp [h0.2.2, hrc]
      unfold submit_loop
      simp only [h0.1, h0.2.1]
      rw [if_pos hcond]
      rw [ih (iter + 1) (rc + 1) fuel (by omega) (by omega) hshift]
      rw [hsum, show iter + 1 + k = iter + (k + 1) from by omega]

/-- C4: the direct-channel submission retries a failed send only when the
error message (lowercased) contains "blockhash", "timeout" or "connection",
up to the fixed maximum of 4 retries with `2 ^ (attempt - 1)` seconds of
backoff before the attempt; a non-retryable failure returns immediately with
zero delay; and when the first `k ≤ 4` sends fail retryably and the next
succeeds, the call succeeds with total backoff `∑ i < k, 2 ^ i` seconds
(the sum of `2 ^ (i - 1)` over attempts `i = 1 .. k`); when all five sends
fail retryably the final error is surfaced after the full backoff. -/
theorem C4_submit_retry_policy (tr : Transport) (k : Nat) (E : Nat → String)
    (sig e : String) :
    (k ≤ 4 →
      (∀ j, j < k → tr.blockhash j = Except.ok ()
        ∧ tr.send j = Except.error (E j) ∧ is_retryable_msg (E j) = true) →
      tr.blockhash k = Except.ok () → tr.send k = Except.ok sig →
      submit_transaction_with_ixs tr = (∑ j ∈ Finset.range k, 2 ^ j, Except.ok sig))
    ∧ (tr.blockhash 0 = Except.ok () → tr.send 0 = Except.error e →
        is_retryable_msg e = false →
        submit_transaction_with_ixs tr = (0, Except.error e))
    ∧ ((∀ j, j ≤ 4 → tr.blockhash j = Except.ok ()
        ∧ tr.send j = Except.error (E j) ∧ is_retryable_msg (E j) = true) →
        submit_transaction_with_ixs tr
          = (∑ j ∈ Finset.range 4, 2 ^ j, Except.error (E 4))) := by
  refine ⟨?_, ?_, ?_⟩
  · intro hk hfail hbh hsend
    have hres := submit_loop_ok tr 4 E sig k 0 0 5 (by omega) (by omega)
      (by intro j hj; simpa using hfail j hj) (by simpa using hbh)
      (by simpa using hsend)
    show submit_loop tr 4 0 0 5 = _
    rw [hres]
    simp
  · intro hbh hsend hret
    have hcond : ¬(is_retryable_msg e && decide (0 < 4)) = true := by
      simp [hret]
    show submit_loop tr 4 0 0 5 = _
    unfold submit_loop
    simp only [hbh, hsend]
    rw [if_neg hcond]
  · intro hfail
    have hres := submit_loop_exhaust tr 4 E 4 0 0 5 (by omega) (by omega)
      (by intro j hj; simpa using hfail j hj)
    show submit_loop tr 4 0 0 5 = _
    rw [hres]
    simp

/-- Witness for C4: a transport whose first two sends fail with a connection
error and then succeeds yields success after 1 + 2 = 3 seconds of backoff; a
transport failing with a non-retryable message errors immediately. -/
theorem C4_submit_retry_policy_witness :
    submit_transaction_with_ixs
        (Transport.mk (fun _ => Except.ok ())
          (fun i => if i < 2 then Except.error "connection refused" else Except.ok "sig"))
      = (3, Except.ok "sig")
    ∧ submit_transaction_with_ixs
        (Transport.mk (fun _ => Except.ok ())
          (fun _ => Except.error "insufficient funds for fee"))
      = (0, Except.error "insufficient funds for fee") := by
  constructor
  · have h := (C4_submit_retry_policy
      (Transport.mk (fun _ => Except.ok ())
        (fun i => if i < 2 then Except.error "connection refused" else Except.ok "sig"))
      2 (fun _ => "connection refused") "sig" "x").1
      (by decide) (by decide) (by decide) (by decide)
    rw [h]
    simp [Finset.sum_range_succ]
  · exact (C4_submit_retry_policy
      (Transport.mk (fun _ => Except.ok ())
        (fun _ => Except.error "insufficient funds for fee"))
      0 (fun _ => "") "sig" "insufficient funds for fee").2.1
      (by decide) (by decide) (by decide)

/-! ## C5: price client failure and retry -/

theorem price_loop_ok (fetch : Nat → Except String (List (String × ℚ))) (m : Nat)
    (E : Nat → String) (p : ℚ × ℚ) :
    ∀ (k att rt fuel : Nat), k < fuel → rt + k ≤ m →
      (∀ j, j < k → get_price (fetch (att + j)) = Except.error (E (att + j))) →
      get_price (fetch (att + k)) = Except.ok p →
      price_loop fetch m att rt fuel
        = (k + 1, ∑ j ∈ Finset.range k, 2 ^ (rt + j), Except.ok p) := by
  intro k
  induction k with
  | zero =>
    intro att rt fuel hfuel _ _ hok
    rcases fuel with _ | fuel
    · exact absurd hfuel (Nat.not_lt_zero _)
    · rw [Nat.add_zero] at hok
      unfold price_loop
      rw [hok]
      simp
  | succ k ih =>
    intro att rt fuel hfuel hm hfail hok
    rcases fuel with _ | fuel
    · exact absurd hfuel (Nat.not_lt_zero _)
    · have h0 := hfail 0 (Nat.succ_pos k)
      rw [Nat.add_zero] at h0
      have hrt : rt < m := by omega
      have hshift : ∀ j, j < k →
          get_price (fetch (att + 1 + j)) = Except.error (E (att + 1 + j)) := by
        intro j hj
        have := hfail (j + 1) (by omega)
        rwa [show att + (j + 1) = att + 1 + j from by omega] at this
      have hok2 : get_price (fetch (att + 1 + k)) = Except.ok p := by
        rwa [show att + (k + 1) = att + 1 + k from by omega] at hok
      have hsum : (∑ j ∈ Finset.range (k + 1), 2 ^ (rt + j))
          = 2 ^ rt + ∑ j ∈ Finset.range k, 2 ^ (rt + 1 + j) := by
        rw [Finset.sum_range_succ' (fun j => 2 ^ (rt + j)) k, Nat.add_zero, Nat.add_comm]
        congr 1
        refine Finset.sum_congr rfl ?_
        intro x _
        congr 1
        omega
      unfold price_loop
      simp only [h0]
      rw [if_pos hrt]
      rw [ih (att + 1) (rt + 1) fuel (by omega) (by omega) hshift hok2]
      rw [hsum]
      simp [Nat.add_comm]

theorem price_loop_exhaust (fetch : Nat → Except String (List (String × ℚ))) (m : Nat)
    (E : Nat → String) :
    ∀ (k att rt fuel : Nat), k < fuel → rt + k = m →
      (∀ j, j ≤ k → get_price (fetch (att + j)) = Except.error (E (att + j))) →
      price_loop fetch m att rt fuel
        = (k + 1, ∑ j ∈ Finset.range k, 2 ^ (rt + j), Except.error (E (att + k))) := by
  intro k
  induction k with
  | zero =>
    intro att rt fuel hfuel hm hfail
    rcases fuel with _ | fuel
    · exact absurd hfuel (Nat.not_lt_zero _)
    · have h0 := hfail 0 (Nat.le_refl 0)
      rw [Nat.add_zero] at h0
      unfold price_loop
      simp only [h0]
      rw [if_neg (by omega : ¬rt < m)]
      rw [Nat.add_zero]
      simp
  | succ k ih =>
    intro att rt fuel hfuel hm hfail
    rcases fuel with _ | fuel
    · exact absurd hfuel (Nat.not_lt_zero _)
    · have h0 := hfail 0 (Nat.zero_le _)
      rw [Nat.add_zero] at h0
      have hrt : rt < m := by omega
      have hshift : ∀ j, j ≤ k →
          get_price (fetch (att + 1 + j)) = Except.error (E (att + 1 + j)) := by
        intro j hj
        have := hfail (j + 1) (by omega)
        rwa [show att + (j + 1) = att + 1 + j from by omega] at this
      have hsum : (∑ j ∈ Finset.range (k + 1), 2 ^ (rt + j))
          = 2 ^ rt + ∑ j ∈ Finset.range k, 2 ^ (rt + 1 + j) := by
        rw [Finset.sum_range_succ' (fun j => 2 ^ (rt + j)) k, Nat.add_zero, Nat.add_comm]
        congr 1
        refine Finset.sum_congr rfl ?_
        intro x _
        congr 1
        omega
      unfold price_loop
      simp only [h0]
      rw [if_pos hrt]
      rw [ih (att + 1) (rt + 1) fuel (by omega) (by omega) hshift]
      rw [hsum, show att + 1 + k = att + (k + 1) from by omega]
      simp [Nat.add_comm]

/-- C5: the price client fails exactly when the fetched response is an error
(unreachable source) or omits one of the two required price ids; and
`get_price_with_retry` retries a failed fetch with `2 ^ (attempt - 1)`
seconds of backoff, returns the first success, and only after `max_retries`
retries are exhausted surfaces the last error, making `max_retries + 1` total
attempts. -/
theorem C5_price_retry_policy (resp : Except String (List (String × ℚ)))
    (mlist : List (String × ℚ)) (fetch : Nat → Except String (List (String × ℚ)))
    (maxR k : Nat) (E : Nat → String) (p : ℚ × ℚ) :
    (∀ e, resp = Except.error e → get_price resp = Except.error e)
    ∧ (resp = Except.ok mlist →
        ((get_price resp).isOk = true
          ↔ ((mlist.lookup ore_mint_id).isSome = true
              ∧ (mlist.lookup sol_mint_id).isSome = true)))
    ∧ (k ≤ maxR →
        (∀ j, j < k → get_price (fetch j) = Except.error (E j)) →
        get_price (fetch k) = Except.ok p →
        get_price_with_retry fetch maxR
          = (k + 1, ∑ j ∈ Finset.range k, 2 ^ j, Except.ok p))
    ∧ ((∀ j, j ≤ maxR → get_price (fetch j) = Except.error (E j)) →
        get_price_with_retry fetch maxR
          = (maxR + 1, ∑ j ∈ Finset.range maxR, 2 ^ j, Except.error (E maxR))) := by
  refine ⟨?_, ?_, ?_, ?_⟩
  · intro e he
    subst he
    rfl
  · intro hm
    subst hm
    rcases h1 : List.lookup ore_mint_id mlist with _ | ore
      <;> rcases h2 : List.lookup sol_mint_id mlist with _ | sol
      <;> simp [get_price, h1, h2, Except.isOk, Except.toBool]
  · intro hk hfail hok
    have hres := price_loop_ok fetch maxR E p k 0 0 (maxR + 1) (by omega) (by omega)
      (by intro j hj; simpa using hfail j hj) (by simpa using hok)
    show price_loop fetch maxR 0 0 (maxR + 1) = _
    rw [hres]
    simp
  · intro hfail
    have hres := price_loop_exhaust fetch maxR E maxR 0 0 (maxR + 1) (by omega) (by omega)
      (by intro j hj; simpa using hfail j hj)
    show price_loop fetch maxR 0 0 (maxR + 1) = _
    rw [hres]
    simp

/-- Witness for C5: a fetch that fails once and then returns both prices
succeeds on the second attempt after 1 second of backoff, and an unreachable
source propagates its error. -/
theorem C5_price_retry_policy_witness :
    get_price_with_retry
        (fun i => if i < 1 then Except.error "network down"
          else Except.ok [(ore_mint_id, 5), (sol_mint_id, 200)]) 3
      = (2, 1, Except.ok (5, 200))
    ∧ get_price (Except.error "network down") = Except.error "network down" := by
  constructor
  · have h := (C5_price_retry_policy (Except.error "x") []
      (fun i => if i < 1 then Except.error "network down"
        else Except.ok [(ore_mint_id, 5), (sol_mint_id, 200)])
      3 1 (fun _ => "network down") (5, 200)).2.2.1
      (by decide) (by decide) (by decide)
    rw [h]
    simp [Finset.sum_range_succ]
  · exact (C5_price_retry_policy (Except.error "network down") []
      (fun _ => Except.error "x") 3 0 (fun _ => "x") (5, 200)).1
      "network down" rfl

/-! ## C7: the accumulated-rewards adjustment -/

/-- C7 counterexample: at a state where the accumulated factor would be
negative (treasury factor 0, miner factor 1), both balance computations
return `Ok` with the adjustment silently skipped — neither treats the
situation as a read error. -/
theorem C7_negative_accumulated_counterexample :
    log_balance_refined_ore 0 1 5 10 = Except.ok 10
    ∧ get_balance_refined_ore 0 1 5 10 = Except.ok 10 := by
  constructor
  · rfl
  · rfl

/-- C7 (amended): both balance computations adjust `refined_ore` exactly when
the treasury factor strictly exceeds the miner factor, in which case the
accumulated factor is strictly positive; when the accumulated factor would be
non-positive, the adjustment is silently skipped and the computation still
succeeds (the negative-accumulated panic of `get_balance` is unreachable
because it is guarded by that same comparison). -/
theorem C7_accumulated_guard (t mf : ℚ) (ore refined : Nat) :
    (t ≤ mf →
      log_balance_refined_ore t mf ore refined = Except.ok refined
      ∧ get_balance_refined_ore t mf ore refined = Except.ok refined)
    ∧ (mf < t →
      0 < t - mf
      ∧ log_balance_refined_ore t mf ore refined
          = Except.ok (refined + ((t - mf) * (ore : ℚ)).floor.toNat)
      ∧ get_balance_refined_ore t mf ore refined
          = Except.ok (refined + ((t - mf) * (ore : ℚ)).floor.toNat)) := by
  constructor
  · intro h
    have hn : ¬mf < t := not_lt.mpr h
    constructor
    · unfold log_balance_refined_ore
      rw [if_neg hn]
    · unfold get_balance_refined_ore
      rw [if_neg hn]
  · intro h
    have hpos : 0 < t - mf := sub_pos.mpr h
    refine ⟨hpos, ?_, ?_⟩
    · unfold log_balance_refined_ore
      rw [if_pos h, if_pos (le_of_lt hpos)]
    · unfold get_balance_refined_ore
      rw [if_pos h, if_neg (not_lt.mpr (le_of_lt hpos))]

/-- Witness for C7 (amended): with treasury factor 1, miner factor 0,
5 rewards units and 10 refined units, the adjustment adds 5; with the factors
swapped the computations return the unchanged balance. -/
theorem C7_accumulated_guard_witness :
    (log_balance_refined_ore 1 0 5 10 = Except.ok (10 + (((1 : ℚ) - 0) * (5 : ℚ)).floor.toNat)
      ∧ get_balance_refined_ore 1 0 5 10
          = Except.ok (10 + (((1 : ℚ) - 0) * (5 : ℚ)).floor.toNat))
    ∧ log_balance_refined_ore 0 1 5 10 = Except.ok 10 :=
  ⟨⟨((C7_accumulated_guard 1 0 5 10).2 (by decide)).2.1,
    ((C7_accumulated_guard 1 0 5 10).2 (by decide)).2.2⟩,
   ((C7_accumulated_guard 0 1 5 10).1 (by decide)).1⟩
